import Mathlib

/-!
# Verification of the `algebraic_enum` enum core, `Option` and `Result`

Shallow embedding of the TypeScript sources `src/enum.ts`, `src/mod.ts`,
`src/option.ts`, `src/result.ts`.

Modelling conventions:

* A JavaScript value is modelled by `JSVal`; `JSVal.undef` is the
  `undefined` sentinel (the "variant not active" marker), `JSVal.null`
  is `null` (the explicit unit / absence-of-data marker), and
  `JSVal.error msg` is an `Error` object carrying message `msg`.
* A JS object used as an enum value is modelled by its own enumerable
  key/value pairs in insertion order: `EnumVal := List (String × JSVal)`.
  Real JS objects have pairwise distinct keys; where a proof needs this
  structural fact it is the `keysNodup` hypothesis.
* A matcher object is a handler lookup (`matcher[key]`, `none` standing
  for `undefined`, i.e. "no handler for this key") together with the
  optional wildcard entry `_`.
* A thrown (catchable) JS exception is modelled by `Except.error v`
  where `v : JSVal` is the thrown value; `throw new Error(msg)` becomes
  `Except.error (JSVal.error msg)`.
-/

namespace AlgebraicEnum

/-- The universe of JavaScript values the embedding ranges over.
`undef` is `undefined`, `null` is `null`, `error msg` is an `Error`
object with message `msg`. -/
inductive JSVal where
  | undef
  | null
  | boolean (b : Bool)
  | num (n : Int)
  | str (s : String)
  | error (msg : String)
deriving DecidableEq, Repr

/-- A JS object modelled as its own enumerable key/value pairs in
insertion order. -/
abbrev EnumVal := List (String × JSVal)

/-- JS property read `e[k]`: the value bound to key `k`, or `undefined`
when the key is absent. -/
def getKey (e : EnumVal) (k : String) : JSVal :=
  (e.lookup k).getD JSVal.undef

/-- A variant key is present on a value when reading it does not give
`undefined` (`value[key] !== undefined`, the presence test used by the
source's `match`). -/
def present (e : EnumVal) (k : String) : Prop :=
  getKey e k ≠ JSVal.undef

/-- Keys of the object are pairwise distinct (true of every real JS
object). -/
def keysNodup (e : EnumVal) : Prop :=
  (e.map Prod.fst).Nodup

/-- The value is a well-formed enum value with active variant `v`:
distinct keys, `v` present, every other key absent.  This is the
single-present-variant invariant of the data model. -/
def wfOn (e : EnumVal) (v : String) : Prop :=
  keysNodup e ∧ present e v ∧ ∀ k, k ≠ v → ¬ present e k

/-- A matcher object: `handlers k` models the property read
`matcher[k]` (`none` = `undefined`), `wildcard` models the optional
wildcard arm `_`. -/
structure Matcher (β : Type) where
  handlers : String → Option (JSVal → β)
  wildcard : Option (Unit → β)

/-- Build a matcher from an object literal: handler entries in
insertion order, plus the optional `_` arm. -/
def mkMatcher {β : Type} (hs : List (String × (JSVal → β)))
    (w : Option (Unit → β)) : Matcher β :=
  ⟨fun k => hs.lookup k, w⟩

/-- The error message of `enum.ts`'s non-exhaustive `throw`. -/
def nonExhaustiveMsg : String :=
  "Non-exhaustive matcher. To ensure all possible cases are covered, you can add a wildcard `_` match arm."

/-- The scan loop of `Enum.match` (`src/enum.ts` lines 204–211): the
first key of `value` whose bound value is present and for which the
matcher has a handler. -/
def matchFind {β : Type} (value : EnumVal) (m : Matcher β) :
    Option (String × JSVal) :=
  value.find? (fun p => p.2 != JSVal.undef && (m.handlers p.1).isSome)

/-- `Enum.match` of `src/enum.ts` (lines 200–223): scan the value's
keys for a present variant that has a handler; call that handler on
`value[variant]`; otherwise call the wildcard; otherwise throw the
non-exhaustive `Error`. -/
def enumMatch {β : Type} (value : EnumVal) (m : Matcher β) :
    Except JSVal β :=
  match matchFind value m with
  | some p =>
    match m.handlers p.1 with
    | some f => .ok (f (getKey value p.1))
    | none => .error (JSVal.error nonExhaustiveMsg)
  | none =>
    match m.wildcard with
    | some w => .ok (w ())
    | none => .error (JSVal.error nonExhaustiveMsg)

/-- `Enum.match` of `src/mod.ts` (lines 22–36): find the first present
key (`Object.keys(e).find(key => e[key] !== undefined)`); if it has a
handler call it on `e[key]`, else fall back to the wildcard, else throw
`new Error("Non-exhaustive matcher")`. -/
def modMatch {β : Type} (e : EnumVal) (m : Matcher β) :
    Except JSVal β :=
  match e.find? (fun p => p.2 != JSVal.undef) with
  | some p =>
    match m.handlers p.1 with
    | some f => .ok (f (getKey e p.1))
    | none =>
      match m.wildcard with
      | some w => .ok (w ())
      | none => .error (JSVal.error "Non-exhaustive matcher")
  | none =>
    match m.wildcard with
    | some w => .ok (w ())
    | none => .error (JSVal.error "Non-exhaustive matcher")

/-- The per-variant constructor produced by `createEnumFactory`
(`src/enum.ts` line 104): `(data = null) => ({ [variant]: data })`.
The default parameter replaces an `undefined` argument by `null`. -/
def construct (variant : String) (data : JSVal) : EnumVal :=
  [(variant, if data = JSVal.undef then JSVal.null else data)]

/-- `createEnumFactory` (`src/enum.ts` lines 94–109): one constructor
function per declared variant name. -/
def createEnumFactory (variants : List String) :
    List (String × (JSVal → EnumVal)) :=
  variants.map (fun v => (v, fun data => construct v data))

/-- `delete value[key]`. -/
def deleteKey (k : String) (e : EnumVal) : EnumVal :=
  e.filter (fun p => p.1 != k)

/-- The delete loop of `Enum.mutate`
(`for (let key in value) delete value[key]`). -/
def clearKeys (e : EnumVal) : EnumVal :=
  (e.map Prod.fst).foldl (fun acc k => deleteKey k acc) e

/-- JS property write `e[k] = v`: overwrite in place when the key
exists, else append. -/
def setKey (k : String) (v : JSVal) (e : EnumVal) : EnumVal :=
  if (e.lookup k).isSome then
    e.map (fun p => if p.1 = k then (k, v) else p)
  else e ++ [(k, v)]

/-- `Object.assign(target, source)`: copy every own enumerable key of
`source` onto `target`, in order. -/
def objectAssign (target source : EnumVal) : EnumVal :=
  source.foldl (fun acc p => setKey p.1 p.2 acc) target

/-- The content computed by `Enum.mutate(value, other)`
(`src/enum.ts` lines 251–260): delete every key of `value`, then
`Object.assign(value, other)`. -/
def enumMutate (value other : EnumVal) : EnumVal :=
  objectAssign (clearKeys value) other

/-- Object references: `Enum.mutate` acts on a heap cell in place. -/
abbrev Ref := Nat

/-- A heap of enum objects, indexed by reference. -/
abbrev Store := Ref → EnumVal

/-- `Enum.mutate(value, other)` at store level: the delete loop first
empties the cell at `a` in place, then `Object.assign` reads `other`
(possibly the same, already-cleared cell when `a = b`) and writes the
result back into the cell at `a`.  No other cell is touched. -/
def mutateStore (s : Store) (a b : Ref) : Store :=
  let s1 : Store := fun r => if r = a then clearKeys (s r) else s r
  fun r => if r = a then objectAssign (s1 a) (s1 b) else s1 r

/-- `Option.Some(data)` (`src/option.ts` lines 327–329):
`new OptionImpl({ Some: data })`; the constructor `Object.assign`s the
pairs onto the fresh object.  The TS type `NoUndefined<T>` forbids
`data` being `undefined`. -/
def OptionSome (d : JSVal) : EnumVal := [("Some", d)]

/-- `Option.None()` (`src/option.ts` lines 334–336):
`new OptionImpl({ None: null })`. -/
def OptionNone : EnumVal := [("None", JSVal.null)]

/-- `Result.Ok(data)` (`src/result.ts` lines 258–260). -/
def ResultOk (d : JSVal) : EnumVal := [("Ok", d)]

/-- `Result.Err(err)` (`src/result.ts` lines 266–268). -/
def ResultErr (e : JSVal) : EnumVal := [("Err", e)]

/-- `Option.from(value)` (`src/option.ts` lines 345–349):
`value == null ? Option.None() : Option.Some(value)`; JS loose
equality `== null` holds exactly for `null` and `undefined`. -/
def optionFrom (v : JSVal) : EnumVal :=
  if v = JSVal.null ∨ v = JSVal.undef then OptionNone else OptionSome v

/-- Joining a thrown-inside-a-handler exception with a thrown-by-match
exception: a handler that throws makes the enclosing method throw. -/
def joinE {β : Type} (r : Except JSVal (Except JSVal β)) :
    Except JSVal β :=
  match r with
  | .ok x => x
  | .error e => .error e

/-- `OptionImpl.unwrap` (`src/option.ts` lines 100–107): match with
`Some: (data) => data` and `None: () => { throw new Error(...) }`. -/
def optionUnwrap (e : EnumVal) : Except JSVal JSVal :=
  joinE (enumMatch e (mkMatcher
    [("Some", fun d => Except.ok d),
     ("None", fun _ => Except.error
       (JSVal.error "Called `Option.unwrap()` on a `None` value"))]
    none))

/-- `ResultImpl.unwrap` (`src/result.ts` lines 64–71): match with
`Ok: (data) => data` and `Err: (err) => { throw err }` — the `Err`
branch rethrows the stored error value itself. -/
def resultUnwrap (e : EnumVal) : Except JSVal JSVal :=
  joinE (enumMatch e (mkMatcher
    [("Ok", fun d => Except.ok d),
     ("Err", fun err => Except.error err)]
    none))

/-- `ResultImpl.unwrapErr` (`src/result.ts` lines 76–83): match with
`Ok: () => { throw new Error(...) }` and `Err: (err) => err`. -/
def resultUnwrapErr (e : EnumVal) : Except JSVal JSVal :=
  joinE (enumMatch e (mkMatcher
    [("Ok", fun _ => Except.error
       (JSVal.error "Called `Result.unwrapErr()` on an `Ok` value")),
     ("Err", fun err => Except.ok err)]
    none))

/-- `OptionImpl.map` (`src/option.ts` lines 173–181): match with
`None: () => Option.None()` and `Some: (data) => Option.Some(f(data))`. -/
def optionMap (e : EnumVal) (f : JSVal → JSVal) :
    Except JSVal EnumVal :=
  enumMatch e (mkMatcher
    [("None", fun _ => OptionNone),
     ("Some", fun d => OptionSome (f d))]
    none)

/-- `OptionImpl.andThen` (`src/option.ts` lines 55–60): match with
`None: () => Option.None()` and `Some: f`. -/
def optionAndThen (e : EnumVal) (f : JSVal → EnumVal) :
    Except JSVal EnumVal :=
  enumMatch e (mkMatcher
    [("None", fun _ => OptionNone),
     ("Some", f)]
    none)

/-- `OptionImpl.orElse` (`src/option.ts` lines 77–82): match with
`Some: () => this` and `None: f`. -/
def optionOrElse (e : EnumVal) (f : Unit → EnumVal) :
    Except JSVal EnumVal :=
  enumMatch e (mkMatcher
    [("Some", fun _ => e),
     ("None", fun _ => f ())]
    none)

/-- `OptionImpl.or` (`src/option.ts` lines 67–69):
`this.orElse(() => other)`. -/
def optionOr (e other : EnumVal) : Except JSVal EnumVal :=
  optionOrElse e (fun _ => other)

/-- `ResultImpl.map` (`src/result.ts` lines 174–182): match with
`Ok: (data) => Result.Ok(f(data))` and `Err: (err) => Result.Err(err)`. -/
def resultMap (e : EnumVal) (f : JSVal → JSVal) :
    Except JSVal EnumVal :=
  enumMatch e (mkMatcher
    [("Ok", fun d => ResultOk (f d)),
     ("Err", fun err => ResultErr err)]
    none)

/-- `ResultImpl.mapErr` (`src/result.ts` lines 190–195): match with
`Ok: (data) => Result.Ok(data)` and `Err: (err) => Result.Err(f(err))`. -/
def resultMapErr (e : EnumVal) (f : JSVal → JSVal) :
    Except JSVal EnumVal :=
  enumMatch e (mkMatcher
    [("Ok", fun d => ResultOk d),
     ("Err", fun err => ResultErr (f err))]
    none)

/-- `ResultImpl.ok` (`src/result.ts` lines 43–48): match with
`Ok: (data) => Option.from(data)` and `Err: () => Option.None()`. -/
def resultOkM (e : EnumVal) : Except JSVal EnumVal :=
  enumMatch e (mkMatcher
    [("Ok", fun d => optionFrom d),
     ("Err", fun _ => OptionNone)]
    none)

/-- `ResultImpl.err` (`src/result.ts` lines 53–58): match with
`Ok: () => Option.None()` and `Err: (data) => Option.from(data)`. -/
def resultErrM (e : EnumVal) : Except JSVal EnumVal :=
  enumMatch e (mkMatcher
    [("Ok", fun _ => OptionNone),
     ("Err", fun d => optionFrom d)]
    none)

/-! ## Basic lemmas about the object model -/

lemma lookup_eq_of_mem_nodup :
    ∀ {e : EnumVal} {k : String} {d : JSVal},
      keysNodup e → (k, d) ∈ e → e.lookup k = some d := by
  intro e
  induction e with
  | nil => intro k d _ h; cases h
  | cons p t ih =>
    intro k d hnd hm
    obtain ⟨k', d'⟩ := p
    have hnd' := hnd
    simp only [keysNodup, List.map_cons, List.nodup_cons] at hnd'
    rcases List.mem_cons.mp hm with h | h
    · rw [Prod.mk.injEq] at h
      obtain ⟨rfl, rfl⟩ := h
      simp
    · have hk : k ≠ k' := by
        rintro rfl
        exact hnd'.1 (List.mem_map_of_mem Prod.fst h)
      have hb : (k == k') = false := beq_eq_false_iff_ne.mpr hk
      rw [List.lookup_cons, hb]
      exact ih hnd'.2 h

lemma mem_of_lookup_eq_some {e : EnumVal} {k : String} {d : JSVal}
    (h : e.lookup k = some d) : (k, d) ∈ e := by
  rcases List.lookup_eq_some_iff.mp h with ⟨l₁, l₂, rfl, -⟩
  simp

lemma getKey_eq_of_mem {e : EnumVal} {k : String} {d : JSVal}
    (hnd : keysNodup e) (hm : (k, d) ∈ e) : getKey e k = d := by
  simp [getKey, lookup_eq_of_mem_nodup hnd hm]

lemma getKey_singleton (v k : String) (x : JSVal) :
    getKey [(v, x)] k = if k = v then x else JSVal.undef := by
  by_cases h : k = v
  · subst h; simp [getKey]
  · have hb : (k == v) = false := beq_eq_false_iff_ne.mpr h
    simp [getKey, List.lookup_cons, hb, h]

lemma wfOn_singleton (v : String) (x : JSVal) (hx : x ≠ JSVal.undef) :
    wfOn [(v, x)] v := by
  refine ⟨by simp [keysNodup], ?_, ?_⟩
  · simp [present, getKey_singleton, hx]
  · intro k hk
    simp [present, getKey_singleton, hk]

lemma lookup_eq_getKey_of_present {e : EnumVal} {v : String}
    (hp : present e v) : e.lookup v = some (getKey e v) := by
  unfold present getKey at hp
  unfold getKey
  cases hl : e.lookup v with
  | none => rw [hl] at hp; simp at hp
  | some d => simp

lemma wfOn_pair_mem {e : EnumVal} {v : String} (h : wfOn e v) :
    (v, getKey e v) ∈ e :=
  mem_of_lookup_eq_some (lookup_eq_getKey_of_present h.2.1)

lemma wfOn_other_pairs {e : EnumVal} {v : String} (h : wfOn e v) :
    ∀ p ∈ e, p.1 ≠ v → p.2 = JSVal.undef := by
  obtain ⟨hnd, hp, hothers⟩ := h
  intro p hm hne
  have := getKey_eq_of_mem hnd (by exact (Prod.mk.eta (p := p)) ▸ hm)
  have habs := hothers p.1 hne
  unfold present at habs
  rw [this] at habs
  simpa using habs

/-! ## find? under uniqueness -/

lemma find?_eq_some_of_unique {α : Type} (p : α → Bool) :
    ∀ {l : List α} {x : α}, x ∈ l → p x = true →
      (∀ y ∈ l, p y = true → y = x) → l.find? p = some x := by
  intro l
  induction l with
  | nil => intro x h; cases h
  | cons a t ih =>
    intro x hx hpx huniq
    by_cases hpa : p a = true
    · have hax : a = x := huniq a (List.mem_cons_self a t) hpa
      subst hax
      exact List.find?_cons_of_pos _ hpa
    · have hax : x ≠ a := fun hh => hpa (hh ▸ hpx)
      have hxt : x ∈ t := by
        rcases List.mem_cons.mp hx with h | h
        · exact absurd h hax
        · exact h
      rw [List.find?_cons_of_neg _ (by simpa using hpa)]
      exact ih hxt hpx fun y hy hpy => huniq y (List.mem_cons_of_mem a hy) hpy

/-! ## Characterization of `match` on well-formed values -/

lemma matchFind_eq_some {β : Type} {e : EnumVal} {v : String}
    (m : Matcher β) (h : wfOn e v) (hh : (m.handlers v).isSome) :
    matchFind e m = some (v, getKey e v) := by
  apply find?_eq_some_of_unique
  · exact wfOn_pair_mem h
  · have h1 : (getKey e v != JSVal.undef) = true := bne_iff_ne.mpr h.2.1
    simp [h1, hh]
  · rintro ⟨k, d⟩ hy hpy
    simp only [Bool.and_eq_true, bne_iff_ne, ne_eq] at hpy
    by_cases hk : k = v
    · subst hk
      have hd := getKey_eq_of_mem h.1 hy
      rw [hd]
    · exact absurd (wfOn_other_pairs h _ hy hk) hpy.1

lemma matchFind_eq_none {β : Type} {e : EnumVal} {v : String}
    {m : Matcher β} (h : wfOn e v) (hn : m.handlers v = none) :
    matchFind e m = none := by
  unfold matchFind
  rw [List.find?_eq_none]
  rintro ⟨k, d⟩ hy
  by_cases hk : k = v
  · subst hk; simp [hn]
  · have h2 : d = JSVal.undef := wfOn_other_pairs h (k, d) hy hk
    simp [h2]

lemma enumMatch_of_handler {β : Type} {e : EnumVal} {v : String}
    {m : Matcher β} {f : JSVal → β}
    (h : wfOn e v) (hf : m.handlers v = some f) :
    enumMatch e m = .ok (f (getKey e v)) := by
  unfold enumMatch
  rw [matchFind_eq_some m h (by simp [hf])]
  simp [hf]

lemma enumMatch_of_wildcard {β : Type} {e : EnumVal} {v : String}
    {m : Matcher β} {w : Unit → β}
    (h : wfOn e v) (hn : m.handlers v = none) (hw : m.wildcard = some w) :
    enumMatch e m = .ok (w ()) := by
  unfold enumMatch
  rw [matchFind_eq_none h hn, hw]

lemma enumMatch_throws {β : Type} {e : EnumVal} {v : String}
    {m : Matcher β}
    (h : wfOn e v) (hn : m.handlers v = none) (hw : m.wildcard = none) :
    enumMatch e m = .error (JSVal.error nonExhaustiveMsg) := by
  unfold enumMatch
  rw [matchFind_eq_none h hn, hw]

lemma find_present_eq_some {e : EnumVal} {v : String} (h : wfOn e v) :
    e.find? (fun p => p.2 != JSVal.undef) = some (v, getKey e v) := by
  apply find?_eq_some_of_unique
  · exact wfOn_pair_mem h
  · exact bne_iff_ne.mpr h.2.1
  · rintro ⟨k, d⟩ hy hpy
    simp only [bne_iff_ne, ne_eq] at hpy
    by_cases hk : k = v
    · subst hk
      have hd := getKey_eq_of_mem h.1 hy
      rw [hd]
    · exact absurd (wfOn_other_pairs h _ hy hk) hpy

lemma modMatch_of_handler {β : Type} {e : EnumVal} {v : String}
    {m : Matcher β} {f : JSVal → β}
    (h : wfOn e v) (hf : m.handlers v = some f) :
    modMatch e m = .ok (f (getKey e v)) := by
  unfold modMatch
  rw [find_present_eq_some h]
  simp [hf]

lemma modMatch_of_wildcard {β : Type} {e : EnumVal} {v : String}
    {m : Matcher β} {w : Unit → β}
    (h : wfOn e v) (hn : m.handlers v = none) (hw : m.wildcard = some w) :
    modMatch e m = .ok (w ()) := by
  unfold modMatch
  rw [find_present_eq_some h]
  simp [hn, hw]

lemma modMatch_throws {β : Type} {e : EnumVal} {v : String}
    {m : Matcher β}
    (h : wfOn e v) (hn : m.handlers v = none) (hw : m.wildcard = none) :
    modMatch e m = .error (JSVal.error "Non-exhaustive matcher") := by
  unfold modMatch
  rw [find_present_eq_some h]
  simp [hn, hw]

/-! ## Match on a value with no present key (malformed value) -/

lemma find_present_eq_none {e : EnumVal} (hnd : keysNodup e)
    (ha : ∀ k, ¬ present e k) :
    e.find? (fun p => p.2 != JSVal.undef) = none := by
  rw [List.find?_eq_none]
  rintro ⟨k, d⟩ hy
  have hd := getKey_eq_of_mem hnd hy
  have h2 := ha k
  unfold present at h2
  rw [hd] at h2
  simp only [ne_eq, not_not] at h2
  simp [h2]

lemma matchFind_absent {β : Type} {e : EnumVal} {m : Matcher β}
    (hnd : keysNodup e) (ha : ∀ k, ¬ present e k) :
    matchFind e m = none := by
  unfold matchFind
  rw [List.find?_eq_none]
  rintro ⟨k, d⟩ hy
  have hd := getKey_eq_of_mem hnd hy
  have h2 := ha k
  unfold present at h2
  rw [hd] at h2
  simp only [ne_eq, not_not] at h2
  simp [h2]

lemma enumMatch_singleton {β : Type} (v : String) (d : JSVal)
    {m : Matcher β} {f : JSVal → β}
    (hd : d ≠ JSVal.undef) (hf : m.handlers v = some f) :
    enumMatch [(v, d)] m = .ok (f d) := by
  have h := enumMatch_of_handler (wfOn_singleton v d hd) hf
  rwa [getKey_singleton, if_pos rfl] at h

/-! ## Mutation lemmas -/

lemma foldl_deleteKey_nil :
    ∀ (ks : List String) (acc : EnumVal),
      (∀ p ∈ acc, p.1 ∈ ks) →
      ks.foldl (fun a k => deleteKey k a) acc = [] := by
  intro ks
  induction ks with
  | nil =>
    intro acc h
    cases acc with
    | nil => rfl
    | cons p t => exact absurd (h p (List.mem_cons_self p t)) (List.not_mem_nil p.1)
  | cons k ks ih =>
    intro acc h
    simp only [List.foldl_cons]
    apply ih
    intro p hp
    have hmem := List.mem_of_mem_filter hp
    have hfil := List.of_mem_filter hp
    rcases List.mem_cons.mp (h p hmem) with h1 | h1
    · exact absurd h1 (by simpa using hfil)
    · exact h1

lemma clearKeys_eq_nil (e : EnumVal) : clearKeys e = [] := by
  apply foldl_deleteKey_nil
  intro p hp
  exact List.mem_map_of_mem Prod.fst hp

lemma objectAssign_append :
    ∀ (src acc : EnumVal),
      keysNodup src → (∀ p ∈ acc, p.1 ∉ src.map Prod.fst) →
      objectAssign acc src = acc ++ src := by
  intro src
  induction src with
  | nil => intro acc _ _; simp [objectAssign]
  | cons q t ih =>
    intro acc hnd hdisj
    obtain ⟨k, v⟩ := q
    simp only [keysNodup, List.map_cons, List.nodup_cons] at hnd
    have hkacc : acc.lookup k = none := by
      rw [List.lookup_eq_none_iff]
      intro p hp
      have hne := hdisj p hp
      simp only [List.map_cons, List.mem_cons, not_or] at hne
      exact bne_iff_ne.mpr (Ne.symm hne.1)
    have hset : setKey k v acc = acc ++ [(k, v)] := by
      unfold setKey
      rw [hkacc]
      simp
    have hrest : objectAssign (acc ++ [(k, v)]) t = (acc ++ [(k, v)]) ++ t := by
      apply ih (acc ++ [(k, v)]) hnd.2
      intro p hp
      rcases List.mem_append.mp hp with h1 | h1
      · have hne := hdisj p h1
        simp only [List.map_cons, List.mem_cons, not_or] at hne
        exact hne.2
      · have : p = (k, v) := by simpa using h1
        rw [this]
        exact hnd.1
    unfold objectAssign
    simp only [List.foldl_cons]
    rw [hset]
    unfold objectAssign at hrest
    rw [hrest]
    simp

lemma enumMutate_eq {value other : EnumVal} (hnd : keysNodup other) :
    enumMutate value other = other := by
  unfold enumMutate
  rw [clearKeys_eq_nil]
  have h := objectAssign_append other [] hnd (by simp)
  simpa using h

/-! ## Constructor lemmas -/

lemma construct_data_ne_undef (d : JSVal) :
    (if d = JSVal.undef then JSVal.null else d) ≠ JSVal.undef := by
  by_cases h : d = JSVal.undef <;> simp [h]

lemma construct_wf (v : String) (d : JSVal) : wfOn (construct v d) v :=
  wfOn_singleton v _ (construct_data_ne_undef d)

lemma createEnumFactory_lookup :
    ∀ (variants : List String) (v : String) (f : JSVal → EnumVal),
      (createEnumFactory variants).lookup v = some f →
      ∀ d, f d = construct v d := by
  intro variants
  induction variants with
  | nil => intro v f h; simp [createEnumFactory] at h
  | cons u t ih =>
    intro v f h d
    unfold createEnumFactory at h
    simp only [List.map_cons] at h
    rw [List.lookup_cons] at h
    by_cases hv : v = u
    · subst hv
      simp only [beq_self_eq_true, Option.some.injEq] at h
      rw [← h]
    · have hb : (v == u) = false := beq_eq_false_iff_ne.mpr hv
      rw [hb] at h
      exact ih v f (by unfold createEnumFactory; exact h) d

/-! ## Claim theorems -/

/-- C1: every construction — a constructor obtained from the factory
returned by `Enum.factory`, `Option.Some`, `Option.None`, `Result.Ok`
or `Result.Err` — produces a value on which exactly the chosen variant
key is present and every other key is absent (`wfOn`), and
`Enum.mutate` re-establishes this single-present-variant invariant:
when the source value satisfies it, the mutated content satisfies it
again.  The `≠ undefined` hypotheses on payloads mirror the
`NoUndefined<T>` typing constraint on legal payloads. -/
theorem c1_single_present_variant :
    (∀ (variants : List String) (v : String) (f : JSVal → EnumVal),
        (createEnumFactory variants).lookup v = some f →
        ∀ d, wfOn (f d) v)
    ∧ (∀ d, d ≠ JSVal.undef → wfOn (OptionSome d) "Some")
    ∧ wfOn OptionNone "None"
    ∧ (∀ d, d ≠ JSVal.undef → wfOn (ResultOk d) "Ok")
    ∧ (∀ er, er ≠ JSVal.undef → wfOn (ResultErr er) "Err")
    ∧ (∀ value other v, wfOn other v →
        wfOn (enumMutate value other) v) := by
  refine ⟨?_, ?_, ?_, ?_, ?_, ?_⟩
  · intro variants v f h d
    rw [createEnumFactory_lookup variants v f h d]
    exact construct_wf v d
  · intro d hd; exact wfOn_singleton _ _ hd
  · exact wfOn_singleton _ _ (by decide)
  · intro d hd; exact wfOn_singleton _ _ hd
  · intro er her; exact wfOn_singleton _ _ her
  · intro value other v h
    rw [enumMutate_eq h.1]
    exact h

/-- Witness for C1 at concrete inputs. -/
theorem c1_single_present_variant_witness :
    ((createEnumFactory ["Quit", "Plaintext"]).lookup "Plaintext"
        = some (fun data => construct "Plaintext" data))
    ∧ wfOn ((fun data => construct "Plaintext" data) (JSVal.str "hi"))
        "Plaintext"
    ∧ JSVal.num 5 ≠ JSVal.undef
    ∧ wfOn (OptionSome (JSVal.num 5)) "Some"
    ∧ wfOn (enumMutate OptionNone (OptionSome (JSVal.num 5))) "Some" := by
  have hl : (createEnumFactory ["Quit", "Plaintext"]).lookup "Plaintext"
      = some (fun data => construct "Plaintext" data) := by rfl
  refine ⟨hl, c1_single_present_variant.1 _ _ _ hl (JSVal.str "hi"),
    by decide, c1_single_present_variant.2.1 _ (by decide), ?_⟩
  exact c1_single_present_variant.2.2.2.2.2 OptionNone _ "Some"
    (c1_single_present_variant.2.1 _ (by decide))

/-- C6: a variant constructed through a factory constructor with the
absence sentinel (`undefined`) as the data argument stores the explicit
unit marker `null` under the variant key, never `undefined`, so the key
is present; `Option.None` likewise stores `null` explicitly. -/
theorem c6_unit_variant_stores_null :
    ∀ v : String,
      construct v JSVal.undef = [(v, JSVal.null)]
      ∧ getKey (construct v JSVal.undef) v = JSVal.null
      ∧ present (construct v JSVal.undef) v
      ∧ OptionNone = [("None", JSVal.null)] := by
  intro v
  refine ⟨by simp [construct], ?_, ?_, rfl⟩
  · simp [construct, getKey_singleton]
  · simp [present, construct, getKey_singleton]

/-- C7: `Option.from` maps both host absence forms (`null` and
`undefined`) to `None` and every other value `x` to `Some(x)` holding
that same value. -/
theorem c7_option_from :
    optionFrom JSVal.null = OptionNone
    ∧ optionFrom JSVal.undef = OptionNone
    ∧ ∀ x, x ≠ JSVal.null → x ≠ JSVal.undef →
        optionFrom x = OptionSome x := by
  refine ⟨rfl, rfl, ?_⟩
  intro x h1 h2
  unfold optionFrom
  rw [if_neg]
  simp [h1, h2]

/-- Witness for C7 at the concrete input `"blah"`. -/
theorem c7_option_from_witness :
    JSVal.str "blah" ≠ JSVal.null ∧ JSVal.str "blah" ≠ JSVal.undef
    ∧ optionFrom (JSVal.str "blah") = OptionSome (JSVal.str "blah") :=
  ⟨by decide, by decide, c7_option_from.2.2 _ (by decide) (by decide)⟩

lemma enumMatch_absent {β : Type} {e : EnumVal} {m : Matcher β}
    (hnd : keysNodup e) (ha : ∀ k, ¬ present e k) :
    enumMatch e m = (match m.wildcard with
      | some w => .ok (w ())
      | none => .error (JSVal.error nonExhaustiveMsg)) := by
  unfold enumMatch
  rw [matchFind_absent hnd ha]

lemma modMatch_absent {β : Type} {e : EnumVal} {m : Matcher β}
    (hnd : keysNodup e) (ha : ∀ k, ¬ present e k) :
    modMatch e m = (match m.wildcard with
      | some w => .ok (w ())
      | none => .error (JSVal.error "Non-exhaustive matcher")) := by
  unfold modMatch
  rw [find_present_eq_none hnd ha]

/-- C2: on a well-formed enum value with active variant `v`, both
`Enum.match` implementations (`src/enum.ts` and `src/mod.ts`) return
exactly the `v` handler's output applied to the active variant's data
when the matcher has a handler for `v`, and the wildcard handler's
output when it does not but supplies `_`.  Since the equations hold for
an arbitrary matcher and an arbitrary result type, the result is
exactly the one handler's output and cannot depend on any other
handler — no other handler is invoked. -/
theorem c2_match_dispatch :
    ∀ (β : Type) (e : EnumVal) (v : String) (m : Matcher β),
      wfOn e v →
      (∀ f, m.handlers v = some f →
        enumMatch e m = .ok (f (getKey e v))
        ∧ modMatch e m = .ok (f (getKey e v)))
      ∧ (∀ w, m.handlers v = none → m.wildcard = some w →
        enumMatch e m = .ok (w ())
        ∧ modMatch e m = .ok (w ())) := by
  intro β e v m h
  exact ⟨fun f hf => ⟨enumMatch_of_handler h hf, modMatch_of_handler h hf⟩,
    fun w hn hw =>
      ⟨enumMatch_of_wildcard h hn hw, modMatch_of_wildcard h hn hw⟩⟩

/-- Witness for C2: matching `Some(5)` against a matcher with a `Some`
handler returns that handler's output, and against a `None`-only
matcher with a wildcard returns the wildcard's output. -/
theorem c2_match_dispatch_witness :
    wfOn (OptionSome (JSVal.num 5)) "Some"
    ∧ enumMatch (OptionSome (JSVal.num 5))
        (mkMatcher [("Some", fun d => d), ("None", fun _ => JSVal.null)]
          none)
      = .ok (JSVal.num 5)
    ∧ modMatch (OptionSome (JSVal.num 5))
        (mkMatcher [("Some", fun d => d), ("None", fun _ => JSVal.null)]
          none)
      = .ok (JSVal.num 5)
    ∧ enumMatch (OptionSome (JSVal.num 5))
        (mkMatcher [("None", fun _ => JSVal.null)]
          (some (fun _ => JSVal.num 0)))
      = .ok (JSVal.num 0) := by
  have hwf : wfOn (OptionSome (JSVal.num 5)) "Some" :=
    wfOn_singleton _ _ (by decide)
  have h1 := (c2_match_dispatch JSVal (OptionSome (JSVal.num 5)) "Some"
    (mkMatcher [("Some", fun d => d), ("None", fun _ => JSVal.null)] none)
    hwf).1 (fun d => d) rfl
  have h2 := (c2_match_dispatch JSVal (OptionSome (JSVal.num 5)) "Some"
    (mkMatcher [("None", fun _ => JSVal.null)]
      (some (fun _ => JSVal.num 0)))
    hwf).2 (fun _ => JSVal.num 0) rfl rfl
  exact ⟨hwf, h1.1, h1.2, h2.1⟩

/-- C3: both `Enum.match` implementations fail by throwing a catchable
non-exhaustive-matcher `Error` (modelled as `Except.error` carrying the
`Error` value each implementation constructs) exactly when the matcher
supplies no wildcard and either the active variant has no handler, or —
the defensive malformed-value case — no variant key is present on the
value at all; the malformed case is treated identically to a
non-exhaustive matcher (a supplied wildcard still rescues it). -/
theorem c3_non_exhaustive_error :
    ∀ (β : Type) (e : EnumVal) (m : Matcher β),
      (∀ v, wfOn e v →
        ((enumMatch e m = .error (JSVal.error nonExhaustiveMsg)
            ↔ m.handlers v = none ∧ m.wildcard = none)
         ∧ (modMatch e m = .error (JSVal.error "Non-exhaustive matcher")
            ↔ m.handlers v = none ∧ m.wildcard = none)))
      ∧ (keysNodup e → (∀ k, ¬ present e k) →
        ((enumMatch e m = .error (JSVal.error nonExhaustiveMsg)
            ↔ m.wildcard = none)
         ∧ (modMatch e m = .error (JSVal.error "Non-exhaustive matcher")
            ↔ m.wildcard = none))) := by
  intro β e m
  constructor
  · intro v h
    constructor
    · constructor
      · intro herr
        cases hf : m.handlers v with
        | some f => rw [enumMatch_of_handler h hf] at herr; simp at herr
        | none =>
          cases hw : m.wildcard with
          | some w =>
            rw [enumMatch_of_wildcard h hf hw] at herr; simp at herr
          | none => exact ⟨rfl, rfl⟩
      · rintro ⟨hf, hw⟩
        exact enumMatch_throws h hf hw
    · constructor
      · intro herr
        cases hf : m.handlers v with
        | some f => rw [modMatch_of_handler h hf] at herr; simp at herr
        | none =>
          cases hw : m.wildcard with
          | some w =>
            rw [modMatch_of_wildcard h hf hw] at herr; simp at herr
          | none => exact ⟨rfl, rfl⟩
      · rintro ⟨hf, hw⟩
        exact modMatch_throws h hf hw
  · intro hnd ha
    constructor
    · rw [enumMatch_absent hnd ha]
      cases hw : m.wildcard with
      | some w => simp
      | none => simp
    · rw [modMatch_absent hnd ha]
      cases hw : m.wildcard with
      | some w => simp
      | none => simp

/-- Witness for C3: the empty matcher throws the non-exhaustive error
on `Some(1)`, and on the malformed empty object; a wildcard rescues the
malformed object. -/
theorem c3_non_exhaustive_error_witness :
    wfOn (OptionSome (JSVal.num 1)) "Some"
    ∧ enumMatch (OptionSome (JSVal.num 1))
        (mkMatcher ([] : List (String × (JSVal → JSVal))) none)
      = .error (JSVal.error nonExhaustiveMsg)
    ∧ modMatch (OptionSome (JSVal.num 1))
        (mkMatcher ([] : List (String × (JSVal → JSVal))) none)
      = .error (JSVal.error "Non-exhaustive matcher")
    ∧ enumMatch ([] : EnumVal)
        (mkMatcher ([] : List (String × (JSVal → JSVal))) none)
      = .error (JSVal.error nonExhaustiveMsg) := by
  have hwf : wfOn (OptionSome (JSVal.num 1)) "Some" :=
    wfOn_singleton _ _ (by decide)
  have hnd : keysNodup ([] : EnumVal) := by simp [keysNodup]
  have ha : ∀ k, ¬ present ([] : EnumVal) k := by
    intro k
    simp [present, getKey]
  have h1 := (c3_non_exhaustive_error JSVal (OptionSome (JSVal.num 1))
    (mkMatcher [] none)).1 "Some" hwf
  have h2 := (c3_non_exhaustive_error JSVal ([] : EnumVal)
    (mkMatcher [] none)).2 hnd ha
  exact ⟨hwf, h1.1.mpr ⟨rfl, rfl⟩, h1.2.mpr ⟨rfl, rfl⟩, h2.1.mpr rfl⟩

/-- C4: for distinct references `a` and `b` (two values, of the same
enum type, held in separate heap cells), `Enum.mutate(a, b)` rewrites
the cell at `a` — the same reference, so every holder of `a` observes
the change — to exactly `b`'s content: `a`'s active variant and payload
now equal `b`'s, no stale key of `a`'s previous state survives (every
key present afterwards is present on `b`), `b`'s cell is untouched, and
no other cell changes. -/
theorem c4_mutate_identity_and_frame :
    ∀ (s : Store) (a b : Ref), a ≠ b → keysNodup (s b) →
      mutateStore s a b a = s b
      ∧ mutateStore s a b b = s b
      ∧ (∀ r, r ≠ a → mutateStore s a b r = s r)
      ∧ (∀ k, present (mutateStore s a b a) k → present (s b) k) := by
  intro s a b hab hnd
  have hba : b ≠ a := Ne.symm hab
  have hframe : ∀ r, r ≠ a → mutateStore s a b r = s r := by
    intro r hr
    simp [mutateStore, hr]
  have ha : mutateStore s a b a = s b := by
    simp only [mutateStore, if_pos, hba, if_false]
    have : objectAssign (clearKeys (s a)) (s b) = s b := enumMutate_eq hnd
    simpa [hba] using this
  exact ⟨ha, hframe b hba, hframe, fun k hk => ha ▸ hk⟩

/-- Witness for C4 on a two-cell store: cell 0 holds `{A: 1}`, cell 1
holds `{B: "x"}`; after `mutate` cell 0 holds `{B: "x"}` and cell 1 is
unchanged. -/
theorem c4_mutate_identity_and_frame_witness :
    ((0 : Ref) ≠ 1)
    ∧ keysNodup ((fun r : Ref =>
        if r = 0 then [("A", JSVal.num 1)] else [("B", JSVal.str "x")]) 1)
    ∧ mutateStore (fun r : Ref =>
        if r = 0 then [("A", JSVal.num 1)] else [("B", JSVal.str "x")])
        0 1 0 = [("B", JSVal.str "x")]
    ∧ mutateStore (fun r : Ref =>
        if r = 0 then [("A", JSVal.num 1)] else [("B", JSVal.str "x")])
        0 1 1 = [("B", JSVal.str "x")] := by
  have h := c4_mutate_identity_and_frame
    (fun r : Ref =>
      if r = 0 then [("A", JSVal.num 1)] else [("B", JSVal.str "x")])
    0 1 (by decide) (by unfold keysNodup; decide)
  exact ⟨by decide, by unfold keysNodup; decide, h.1, h.2.1⟩

/-- C5: `Option.unwrap` returns the contained data on `Some` and on
`None` throws a freshly constructed `Error` with the fixed message
naming the failed precondition; `Result.unwrap` returns the data on
`Ok` and on `Err` throws the original contained error value itself
(the very stored value, not a newly constructed error);
`Result.unwrapErr` returns the error on `Err` and on `Ok` throws a
freshly constructed fixed-message `Error`.  Thrown exceptions are
modelled as `Except.error` of the thrown value. -/
theorem c5_unwrap_contract :
    ∀ d er : JSVal,
      (d ≠ JSVal.undef → optionUnwrap (OptionSome d) = .ok d)
      ∧ optionUnwrap OptionNone
          = .error (JSVal.error "Called `Option.unwrap()` on a `None` value")
      ∧ (d ≠ JSVal.undef → resultUnwrap (ResultOk d) = .ok d)
      ∧ (er ≠ JSVal.undef → resultUnwrap (ResultErr er) = .error er)
      ∧ (er ≠ JSVal.undef → resultUnwrapErr (ResultErr er) = .ok er)
      ∧ (d ≠ JSVal.undef → resultUnwrapErr (ResultOk d)
          = .error
            (JSVal.error "Called `Result.unwrapErr()` on an `Ok` value")) := by
  intro d er
  refine ⟨?_, ?_, ?_, ?_, ?_, ?_⟩
  · intro hd
    show joinE (enumMatch [("Some", d)] _) = _
    rw [enumMatch_singleton "Some" d hd rfl]
    rfl
  · rfl
  · intro hd
    show joinE (enumMatch [("Ok", d)] _) = _
    rw [enumMatch_singleton "Ok" d hd rfl]
    rfl
  · intro her
    show joinE (enumMatch [("Err", er)] _) = _
    rw [enumMatch_singleton "Err" er her rfl]
    rfl
  · intro her
    show joinE (enumMatch [("Err", er)] _) = _
    rw [enumMatch_singleton "Err" er her rfl]
    rfl
  · intro hd
    show joinE (enumMatch [("Ok", d)] _) = _
    rw [enumMatch_singleton "Ok" d hd rfl]
    rfl

/-- Witness for C5 at `Some(5)`, `Ok(5)` and `Err(Error("boom"))`. -/
theorem c5_unwrap_contract_witness :
    JSVal.num 5 ≠ JSVal.undef ∧ JSVal.error "boom" ≠ JSVal.undef
    ∧ optionUnwrap (OptionSome (JSVal.num 5)) = .ok (JSVal.num 5)
    ∧ resultUnwrap (ResultErr (JSVal.error "boom"))
        = .error (JSVal.error "boom")
    ∧ resultUnwrapErr (ResultOk (JSVal.num 5))
        = .error
          (JSVal.error "Called `Result.unwrapErr()` on an `Ok` value") := by
  have h := c5_unwrap_contract (JSVal.num 5) (JSVal.error "boom")
  exact ⟨by decide, by decide, h.1 (by decide),
    h.2.2.2.1 (by decide), h.2.2.2.2.2 (by decide)⟩

/-- C8: the Option combinator laws, as equalities of observable option
values (the `Except` layer records that no exception is thrown): map
composition on `Some`, `None().andThen(f) = None()` for every `f`,
`Some(x).or(y) = Some(x)` and `None().or(y) = y`.  The hypotheses
mirror the `NoUndefined` typing constraints on `x` and on `f`'s
return value. -/
theorem c8_option_combinator_laws :
    ∀ (x : JSVal) (f g : JSVal → JSVal) (k : JSVal → EnumVal)
      (y : EnumVal),
      x ≠ JSVal.undef → f x ≠ JSVal.undef →
      ((optionMap (OptionSome x) f >>= fun o => optionMap o g)
          = optionMap (OptionSome x) (fun d => g (f d)))
      ∧ optionAndThen OptionNone k = .ok OptionNone
      ∧ optionOr (OptionSome x) y = .ok (OptionSome x)
      ∧ optionOr OptionNone y = .ok y := by
  intro x f g k y hx hfx
  refine ⟨?_, ?_, ?_, ?_⟩
  · have h1 : optionMap (OptionSome x) f = .ok (OptionSome (f x)) := by
      show enumMatch [("Some", x)] _ = _
      rw [enumMatch_singleton "Some" x hx rfl]
    have h2 : optionMap (OptionSome (f x)) g
        = .ok (OptionSome (g (f x))) := by
      show enumMatch [("Some", f x)] _ = _
      rw [enumMatch_singleton "Some" (f x) hfx rfl]
    have h3 : optionMap (OptionSome x) (fun d => g (f d))
        = .ok (OptionSome (g (f x))) := by
      show enumMatch [("Some", x)] _ = _
      rw [enumMatch_singleton "Some" x hx rfl]
    rw [h1]
    show optionMap (OptionSome (f x)) g = _
    rw [h2, h3]
  · rfl
  · show enumMatch [("Some", x)] _ = _
    rw [enumMatch_singleton "Some" x hx rfl]
  · rfl

/-- Witness for C8 at `x = 2`, `f = (+1)`, `g = (*3)`,
`y = Some("y")`. -/
theorem c8_option_combinator_laws_witness :
    JSVal.num 2 ≠ JSVal.undef
    ∧ (fun v => match v with
        | JSVal.num n => JSVal.num (n + 1)
        | _ => JSVal.null) (JSVal.num 2) ≠ JSVal.undef
    ∧ optionOr (OptionSome (JSVal.num 2)) (OptionSome (JSVal.str "y"))
        = .ok (OptionSome (JSVal.num 2))
    ∧ optionOr OptionNone (OptionSome (JSVal.str "y"))
        = .ok (OptionSome (JSVal.str "y"))
    ∧ (optionMap (OptionSome (JSVal.num 2))
          (fun v => match v with
            | JSVal.num n => JSVal.num (n + 1)
            | _ => JSVal.null)
        >>= fun o => optionMap o
          (fun v => match v with
            | JSVal.num n => JSVal.num (n * 3)
            | _ => JSVal.null))
      = optionMap (OptionSome (JSVal.num 2))
          (fun d => (fun v => match v with
            | JSVal.num n => JSVal.num (n * 3)
            | _ => JSVal.null)
            ((fun v => match v with
              | JSVal.num n => JSVal.num (n + 1)
              | _ => JSVal.null) d)) := by
  have h := c8_option_combinator_laws (JSVal.num 2)
    (fun v => match v with
      | JSVal.num n => JSVal.num (n + 1)
      | _ => JSVal.null)
    (fun v => match v with
      | JSVal.num n => JSVal.num (n * 3)
      | _ => JSVal.null)
    (fun _ => OptionNone)
    (OptionSome (JSVal.str "y"))
    (by decide) (by decide)
  exact ⟨by decide, by decide, h.2.2.1, h.2.2.2, h.1⟩

/-- C9: `Result.map` transforms only the success side and
`Result.mapErr` only the failure side, each producing an equal value on
the untouched side. -/
theorem c9_result_map_sides :
    ∀ (x er : JSVal) (f : JSVal → JSVal),
      x ≠ JSVal.undef → er ≠ JSVal.undef →
      resultMap (ResultOk x) f = .ok (ResultOk (f x))
      ∧ resultMap (ResultErr er) f = .ok (ResultErr er)
      ∧ resultMapErr (ResultErr er) f = .ok (ResultErr (f er))
      ∧ resultMapErr (ResultOk x) f = .ok (ResultOk x) := by
  intro x er f hx her
  refine ⟨?_, ?_, ?_, ?_⟩
  · show enumMatch [("Ok", x)] _ = _
    rw [enumMatch_singleton "Ok" x hx rfl]
  · show enumMatch [("Err", er)] _ = _
    rw [enumMatch_singleton "Err" er her rfl]
  · show enumMatch [("Err", er)] _ = _
    rw [enumMatch_singleton "Err" er her rfl]
  · show enumMatch [("Ok", x)] _ = _
    rw [enumMatch_singleton "Ok" x hx rfl]

/-- Witness for C9 at `x = 5`, `er = Error("e")`, `f` adding one. -/
theorem c9_result_map_sides_witness :
    JSVal.num 5 ≠ JSVal.undef ∧ JSVal.error "e" ≠ JSVal.undef
    ∧ resultMap (ResultOk (JSVal.num 5))
        (fun v => match v with
          | JSVal.num n => JSVal.num (n + 1)
          | _ => JSVal.null)
      = .ok (ResultOk (JSVal.num 6))
    ∧ resultMap (ResultErr (JSVal.error "e"))
        (fun v => match v with
          | JSVal.num n => JSVal.num (n + 1)
          | _ => JSVal.null)
      = .ok (ResultErr (JSVal.error "e")) := by
  have h := c9_result_map_sides (JSVal.num 5) (JSVal.error "e")
    (fun v => match v with
      | JSVal.num n => JSVal.num (n + 1)
      | _ => JSVal.null)
    (by decide) (by decide)
  exact ⟨by decide, by decide, h.1, h.2.1⟩

/-- C10 (implicit): `Result.ok` and `Result.err` convert through
`Option.from` rather than wrapping directly in `Some`: on `Ok(d)` the
result is `Option.from(d)`, so an `Ok` whose payload is `null` becomes
`None` — the `null` success payload is not preserved — and `Some(d)`
results exactly when `d` is neither `null` nor `undefined`; on `Err`,
`ok()` gives `None`, and `err()` likewise goes through `Option.from`. -/
theorem c10_result_to_option_via_from :
    ∀ d er : JSVal,
      (d ≠ JSVal.undef → resultOkM (ResultOk d) = .ok (optionFrom d))
      ∧ resultOkM (ResultOk JSVal.null) = .ok OptionNone
      ∧ (d ≠ JSVal.null → d ≠ JSVal.undef →
          resultOkM (ResultOk d) = .ok (OptionSome d))
      ∧ (er ≠ JSVal.undef → resultOkM (ResultErr er) = .ok OptionNone)
      ∧ (er ≠ JSVal.undef →
          resultErrM (ResultErr er) = .ok (optionFrom er)) := by
  intro d er
  refine ⟨?_, ?_, ?_, ?_, ?_⟩
  · intro hd
    show enumMatch [("Ok", d)] _ = _
    rw [enumMatch_singleton "Ok" d hd rfl]
  · rfl
  · intro h1 h2
    show enumMatch [("Ok", d)] _ = _
    rw [enumMatch_singleton "Ok" d h2 rfl]
    unfold optionFrom
    rw [if_neg (by simp [h1, h2])]
  · intro her
    show enumMatch [("Err", er)] _ = _
    rw [enumMatch_singleton "Err" er her rfl]
  · intro her
    show enumMatch [("Err", er)] _ = _
    rw [enumMatch_singleton "Err" er her rfl]

/-- Witness for C10: `Ok(null).ok()` is `None`; `Ok(7).ok()` is
`Some(7)`; `Err(Error("e")).ok()` is `None`. -/
theorem c10_result_to_option_via_from_witness :
    JSVal.num 7 ≠ JSVal.null ∧ JSVal.num 7 ≠ JSVal.undef
    ∧ JSVal.error "e" ≠ JSVal.undef
    ∧ resultOkM (ResultOk JSVal.null) = .ok OptionNone
    ∧ resultOkM (ResultOk (JSVal.num 7)) = .ok (OptionSome (JSVal.num 7))
    ∧ resultOkM (ResultErr (JSVal.error "e")) = .ok OptionNone := by
  have h := c10_result_to_option_via_from (JSVal.num 7) (JSVal.error "e")
  exact ⟨by decide, by decide, by decide, h.2.1,
    h.2.2.1 (by decide) (by decide), h.2.2.2.1 (by decide)⟩

end AlgebraicEnum
